import Mathlib

/-!
Verification of the quiz-poll analytics pipeline.

This file gives a shallow embedding of the data-reconciliation and
metric-derivation pipeline spread over `get_cleaned.py`, `get_questions.py`
and `quiz_dashboard3.py`:

* cell values of the spreadsheet columns (strings, integers, timestamps and
  the pandas missing-value marker `NaT`) are modelled by the inductive `Val`;
* the date-cleaning function `convert_date` and the tally-cleaning function
  `convert_vote_count` of `get_cleaned.py` are embedded directly;
* the vote-count reconciliation loop of `get_cleaned.py` (lines 44-51) is
  embedded as a fold over the rows of the question-answer table;
* the relative-date resolver `parse_custom_date` of `get_questions.py`
  (lines 27-41) is embedded with the wall-clock date it reads via
  `datetime.now()` made an explicit argument;
* the insight engine `calculate_insights` of `quiz_dashboard3.py`
  (lines 55-124), together with the enriching left merge of `load_data`
  (lines 42-48), is embedded metric by metric over list-of-record tables.

Python string primitives (`in`, `str.split`, `str.strip`, `int(...)`) are
modelled by structurally recursive functions over character lists so that
every definition evaluates by kernel reduction.  External library calls
(`pd.to_datetime`) are abstracted as function parameters; concrete toy
instantiations are supplied for witnesses.
-/

/-- Calendar date, as carried by `datetime.now()` in `get_questions.py`. -/
structure PyDate where
  year : Nat
  month : Nat
  day : Nat
deriving DecidableEq

/-- Calendar timestamp (to minute precision), the canonical parsed form of a
pandas `Timestamp` as used by the pipeline. -/
structure PyDateTime where
  year : Nat
  month : Nat
  day : Nat
  hour : Nat
  minute : Nat
deriving DecidableEq

/-- Heterogeneous spreadsheet cell value: a string, an integer, a parsed
timestamp, or the pandas missing marker `NaT`. -/
inductive Val where
  | str (s : String)
  | int (n : Int)
  | ts (t : PyDateTime)
  | NaT
deriving DecidableEq

/-- Test whether the first list is an initial segment of the second. -/
def isPrefixCL : List Char → List Char → Bool
  | [], _ => true
  | _ :: _, [] => false
  | a :: ps, b :: ss => a = b && isPrefixCL ps ss

/-- Substring occurrence test on character lists, modelling the Python
expression `pat in s`. -/
def containsCL (pat : List Char) : List Char → Bool
  | [] => isPrefixCL pat []
  | a :: rest => isPrefixCL pat (a :: rest) || containsCL pat rest

/-- Substring test on strings, modelling the Python expression `pat in s`. -/
def strContains (s pat : String) : Bool :=
  containsCL pat.data s.data

/-- Python whitespace characters relevant to `str.split()` / `str.strip()`. -/
def isPyWs (c : Char) : Bool :=
  decide (c = ' ' ∨ c = '\t' ∨ c = '\n' ∨ c = '\r')

/-- Accumulator worker for `pySplitCL`. -/
def pySplitAux : List Char → List Char → List (List Char)
  | [], acc => if acc = [] then [] else [acc.reverse]
  | c :: rest, acc =>
      if isPyWs c then
        if acc = [] then pySplitAux rest []
        else acc.reverse :: pySplitAux rest []
      else pySplitAux rest (c :: acc)

/-- Whitespace split modelling the Python call `s.split()` with no argument:
maximal runs of non-whitespace characters, empty pieces discarded. -/
def pySplitCL (cs : List Char) : List (List Char) :=
  pySplitAux cs []

/-- Strip of leading and trailing whitespace, modelling `str.strip()`. -/
def trimCL (cs : List Char) : List Char :=
  ((cs.dropWhile isPyWs).reverse.dropWhile isPyWs).reverse

/-- Numeric value of a list of decimal digit characters. -/
def digitsVal (cs : List Char) : Nat :=
  cs.foldl (fun n c => n * 10 + (c.toNat - 48)) 0

/-- Python `int(s)` on a decimal string: optional surrounding whitespace,
optional sign, then at least one digit; every other string raises
`ValueError`, modelled as `none`. -/
def pyIntCL (cs : List Char) : Option Int :=
  match trimCL cs with
  | [] => none
  | '-' :: rest =>
      if rest ≠ [] ∧ rest.all Char.isDigit then
        some (-(digitsVal rest : Int))
      else none
  | '+' :: rest =>
      if rest ≠ [] ∧ rest.all Char.isDigit then
        some ((digitsVal rest : Int))
      else none
  | ds =>
      if ds.all Char.isDigit then some ((digitsVal ds : Int)) else none

/-- The function `convert_vote_count` of `get_cleaned.py` (lines 34-37).
A string containing `"votes"` is sent to `int(value.split()[0])`; Python
`int` raises `ValueError` when the leading token is not a decimal integer,
and indexing an empty split raises `IndexError`; both aborts are modelled by
`none`.  Every other value is passed through unchanged. -/
def convert_vote_count (v : Val) : Option Val :=
  match v with
  | Val.str s =>
      if containsCL "votes".data s.data then
        match pySplitCL s.data with
        | [] => none
        | t :: _ => (pyIntCL t).map Val.int
      else some (Val.str s)
  | w => some w

/-- The function `convert_date` of `get_cleaned.py` (lines 10-25).  The four
relative keywords are compared by exact string equality and map to the
hard-coded calendar snapshot of October 2024; every other value is handed to
the external day-first parser `pd.to_datetime(value, dayfirst=True,
errors='coerce')`, abstracted here as the parameter `toDT` (returning `none`
models the parser raising, in which case the `except` branch returns the
value unchanged; with `errors='coerce'` a failed parse instead returns
`some Val.NaT`). -/
def convert_date (toDT : Val → Option Val) (v : Val) : Val :=
  if v = Val.str "TODAY" then Val.ts ⟨2024, 10, 22, 0, 0⟩
  else if v = Val.str "YESTERDAY" then Val.ts ⟨2024, 10, 21, 0, 0⟩
  else if v = Val.str "SUNDAY" then Val.ts ⟨2024, 10, 20, 0, 0⟩
  else if v = Val.str "FRIDAY" then Val.ts ⟨2024, 10, 18, 0, 0⟩
  else
    match toDT v with
    | some r => r
    | none => v

/-- Leap-year test of the Gregorian calendar. -/
def isLeap (y : Nat) : Bool :=
  decide ((y % 4 = 0 ∧ y % 100 ≠ 0) ∨ y % 400 = 0)

/-- Number of days of a month in the Gregorian calendar. -/
def daysInMonth (y m : Nat) : Nat :=
  if m = 2 then (if isLeap y then 29 else 28)
  else if m = 4 ∨ m = 6 ∨ m = 9 ∨ m = 11 then 30
  else 31

/-- Calendar date one day earlier, modelling
`datetime.now() - timedelta(days=1)` as far as the date part is concerned. -/
def prevDate (d : PyDate) : PyDate :=
  if 1 < d.day then ⟨d.year, d.month, d.day - 1⟩
  else if 1 < d.month then ⟨d.year, d.month - 1, daysInMonth d.year (d.month - 1)⟩
  else ⟨d.year - 1, 12, 31⟩

/-- Accumulator worker for `natDigitsCL`; the fuel dominates the number of
decimal digits. -/
def natDigitsAux : Nat → Nat → List Char → List Char
  | 0, _, acc => acc
  | fuel + 1, n, acc =>
      let d := Char.ofNat (48 + n % 10)
      if n < 10 then d :: acc else natDigitsAux fuel (n / 10) (d :: acc)

/-- Decimal digit characters of a natural number. -/
def natDigitsCL (n : Nat) : List Char :=
  natDigitsAux (n + 1) n []

/-- Zero-padded two-digit rendering of a day or month number, as produced by
the zero-padded day and month directives of `strftime`. -/
def pad2CL (n : Nat) : List Char :=
  if n < 10 then '0' :: natDigitsCL n else natDigitsCL n

/-- Rendering of a date in the `strftime("%d/%m/%Y")` format used by
`parse_custom_date`. -/
def fmtDMY (d : PyDate) : List Char :=
  pad2CL d.day ++ '/' :: pad2CL d.month ++ '/' :: natDigitsCL d.year

/-- Suffix after the first occurrence of `pat`, or `none` when `pat` does not
occur. -/
def afterFirstCL (pat : List Char) : List Char → Option (List Char)
  | [] => if isPrefixCL pat [] then some [] else none
  | a :: rest =>
      if isPrefixCL pat (a :: rest) then some (List.drop pat.length (a :: rest))
      else afterFirstCL pat rest

/-- Fuelled worker for `afterLastCL`. -/
def afterLastAux (pat : List Char) : Nat → List Char → List Char
  | 0, s => s
  | fuel + 1, s =>
      match afterFirstCL pat s with
      | none => s
      | some t => if pat.length = 0 then s else afterLastAux pat fuel t

/-- Suffix after the last occurrence of the non-empty pattern `pat` (the
whole list when `pat` does not occur), modelling the Python expression
`s.split(pat)[-1]`. -/
def afterLastCL (pat s : List Char) : List Char :=
  afterLastAux pat (s.length + 1) s

/-- Input of `parse_custom_date`: the value is either already a pandas
`Timestamp` or a raw string. -/
inductive DateCell where
  | ts (t : PyDateTime)
  | s (x : String)
deriving DecidableEq

/-- The function `parse_custom_date` of `get_questions.py` (lines 27-41).
A `Timestamp` is returned as is.  A string containing `"Today"` (checked
first) or `"Yesterday"` has its time-of-day part — the Python expression
`date_str.split("at")[-1].strip()`, modelled by `afterLastCL` and `trimCL` —
recombined with the wall-clock date read from `datetime.now()` (respectively
that date minus one day), rendered day/month/year; the result, like every
other string, is passed to the external parser
`pd.to_datetime(_, dayfirst=True, errors='coerce')`, abstracted as `toDT`.
The wall-clock date is the explicit argument `now`. -/
def parse_custom_date (toDT : String → Val) (now : PyDate) (v : DateCell) : Val :=
  match v with
  | DateCell.ts t => Val.ts t
  | DateCell.s s =>
      if containsCL "Today".data s.data then
        let tp := trimCL (afterLastCL "at".data s.data)
        toDT (String.mk (fmtDMY now ++ ' ' :: tp))
      else if containsCL "Yesterday".data s.data then
        let tp := trimCL (afterLastCL "at".data s.data)
        toDT (String.mk (fmtDMY (prevDate now) ++ ' ' :: tp))
      else toDT s

/-- Split on a single separator character, modelling `s.split(sep)` for a
one-character separator (empty pieces kept). -/
def splitCharAux (sep : Char) : List Char → List Char → List (List Char)
  | [], acc => [acc.reverse]
  | c :: rest, acc =>
      if c = sep then acc.reverse :: splitCharAux sep rest []
      else splitCharAux sep rest (c :: acc)

/-- Split of a character list on a separator character. -/
def splitCharCL (sep : Char) (cs : List Char) : List (List Char) :=
  splitCharAux sep cs []

/-- Digits-only character list to number, helper for the toy parser. -/
def digitsToNat? (cs : List Char) : Option Nat :=
  if cs ≠ [] ∧ cs.all Char.isDigit then some (digitsVal cs) else none

/-- Concrete toy instantiation of the external day-first parser
`pd.to_datetime(_, dayfirst=True, errors='coerce')`, used to build witnesses:
it accepts exactly the strings of the shape day/month/year, optionally
followed by hour:minute, and yields `NaT` otherwise. -/
def toyDayfirst (s : String) : Val :=
  match splitCharCL ' ' s.data with
  | [ds, tp] =>
      match splitCharCL '/' ds, splitCharCL ':' tp with
      | [d, m, y], [h, mi] =>
          match digitsToNat? d, digitsToNat? m, digitsToNat? y,
              digitsToNat? h, digitsToNat? mi with
          | some d1, some m1, some y1, some h1, some mi1 =>
              Val.ts ⟨y1, m1, d1, h1, mi1⟩
          | _, _, _, _, _ => Val.NaT
      | _, _ => Val.NaT
  | [ds] =>
      match splitCharCL '/' ds with
      | [d, m, y] =>
          match digitsToNat? d, digitsToNat? m, digitsToNat? y with
          | some d1, some m1, some y1 => Val.ts ⟨y1, m1, d1, 0, 0⟩
          | _, _, _ => Val.NaT
      | _ => Val.NaT
  | _ => Val.NaT

/-- Version of `toyDayfirst` on cell values, for `convert_date`: a string is
parsed, a timestamp passes through, and any other cell coerces to `NaT`; the
parser never raises, matching `errors='coerce'`. -/
def toyDayfirstVal (v : Val) : Option Val :=
  match v with
  | Val.str s => some (toyDayfirst s)
  | Val.ts t => some (Val.ts t)
  | _ => some Val.NaT

example : toyDayfirst "22/10/2024 10:00" = Val.ts ⟨2024, 10, 22, 10, 0⟩ := by decide
example : parse_custom_date toyDayfirst ⟨2024, 10, 22⟩ (DateCell.s "Today at 10:00")
    = Val.ts ⟨2024, 10, 22, 10, 0⟩ := by decide
example : parse_custom_date toyDayfirst ⟨2024, 10, 23⟩ (DateCell.s "Yesterday at 9:30")
    = Val.ts ⟨2024, 10, 22, 9, 30⟩ := by decide
example : convert_vote_count (Val.str "42 votes") = some (Val.int 42) := by decide
example : convert_vote_count (Val.str "many votes") = none := by decide
example : convert_date toyDayfirstVal (Val.str "TODAY") = Val.ts ⟨2024, 10, 22, 0, 0⟩ := by decide
example : convert_date toyDayfirstVal (Val.str "today") = Val.NaT := by decide
example : convert_date toyDayfirstVal (Val.str "03/04/2024") = Val.ts ⟨2024, 4, 3, 0, 0⟩ := by decide

/-- Row of the question-answer table `Que_Ans.xlsx` as held in `que_ans_df`
in `get_cleaned.py`: one row per question-and-answer-option pair, with a raw
creation date and a raw tally field. -/
structure QARow where
  que_text : String
  que_created_at : Val
  ans_text : String
  votes : Val
deriving DecidableEq

/-- Row of the ballot table `Voter.xlsx` as held in `voter_df` in
`get_cleaned.py`. -/
structure BallotRow where
  voter_name : String
  question_text : String
  choice : String
  vote_count : Val
  voting_time : Val
deriving DecidableEq

/-- Row of the correct-answer table `Correct_Answers.xlsx`: in the source the
key column is still called `que_text` before `calculate_insights` renames it
to `question_text`; this record uses the post-rename name throughout. -/
structure CARow where
  question_text : String
  ans_text : String
deriving DecidableEq

/-- Number of ballot rows with exactly the given question text and choice:
the expression
`voter_df[(voter_df['question_text'] == q) & (voter_df['choice'] == c)].shape[0]`
of `get_cleaned.py` line 48-49. -/
def countQC (voters : List BallotRow) (q c : String) : Nat :=
  (voters.filter (fun b => decide (b.question_text = q ∧ b.choice = c))).length

/-- Generic first-occurrence deduplication by key (worker, carrying the set
of keys already seen), modelling `drop_duplicates` / `.unique()`. -/
def dedupByKeyAux {α κ : Type} [DecidableEq κ] (key : α → κ) (seen : List κ) :
    List α → List α
  | [] => []
  | a :: l =>
      if key a ∈ seen then dedupByKeyAux key seen l
      else a :: dedupByKeyAux key (key a :: seen) l

/-- First-occurrence deduplication by key: keeps the first element of each
distinct key, in order, as pandas `drop_duplicates` (default `keep='first'`)
and `Series.unique()` do. -/
def dedupByKey {α κ : Type} [DecidableEq κ] (key : α → κ) (l : List α) : List α :=
  dedupByKeyAux key [] l

/-- Distinct choices appearing among the ballots of question `q`, in first
appearance order: `voter_df[voter_df['question_text'] == q]['choice'].unique()`
of `get_cleaned.py` line 47. -/
def choicesFor (voters : List BallotRow) (q : String) : List String :=
  dedupByKey id ((voters.filter (fun b => decide (b.question_text = q))).map
    (fun b => b.choice))

/-- Effect of one `.loc` assignment of the reconciliation loop on one row:
rows whose `que_text` and `ans_text` match the chosen pair get their `votes`
field replaced by the recount. -/
def setVotesRow (voters : List BallotRow) (q c : String) (r : QARow) : QARow :=
  if r.que_text = q ∧ r.ans_text = c then
    { r with votes := Val.int ((countQC voters q c : Nat) : Int) }
  else r

/-- One `.loc` assignment of `get_cleaned.py` lines 50-51 applied to the
whole table. -/
def setVotes (voters : List BallotRow) (q c : String) (t : List QARow) : List QARow :=
  t.map (setVotesRow voters q c)

/-- Inner loop of `get_cleaned.py` lines 47-51: for each distinct ballot
choice of question `q`, overwrite the matching rows' tally. -/
def reconcileQuestion (voters : List BallotRow) (q : String) (t : List QARow) :
    List QARow :=
  (choicesFor voters q).foldl (fun t c => setVotes voters q c t) t

/-- The reconciliation loop of `get_cleaned.py` lines 44-51: iterate over the
rows of `que_ans_df` (only their `que_text` is consulted, and the loop never
changes that field, so iterating over the original row list is faithful) and
run the inner per-choice loop for each. -/
def reconcile (qa : List QARow) (voters : List BallotRow) : List QARow :=
  (qa.map (fun r => r.que_text)).foldl (fun t q => reconcileQuestion voters q t) qa

/-- The module-level state of `get_cleaned.py`: the three loaded tables. -/
structure ModuleState where
  que_ans_df : List QARow
  voter_df : List BallotRow
  correct_answers_df : List CARow
deriving DecidableEq

/-- The reconciliation stage as a transformer of the module state: the loop
writes its recounts into `que_ans_df` itself (in the source via in-place
`.loc` assignment on the shared frame), and touches nothing else. -/
def reconcileState (s : ModuleState) : ModuleState :=
  { s with que_ans_df := reconcile s.que_ans_df s.voter_df }

/-- Tally values carried by the rows of a question-answer table with the
given question text and answer text, in row order. -/
def tallies (t : List QARow) (q c : String) : List Val :=
  (t.filter (fun r => decide (r.que_text = q ∧ r.ans_text = c))).map
    (fun r => r.votes)

/-- Stable insertion into a sorted list: the new element goes before the
first element it compares `le` to. -/
def insertSorted {α : Type} (le : α → α → Bool) (a : α) : List α → List α
  | [] => [a]
  | b :: l => if le a b then a :: b :: l else b :: insertSorted le a l

/-- Stable insertion sort by a boolean comparison; used to model the sorting
steps of the pandas pipeline (`sort_values`, `value_counts`, `nlargest`,
`nsmallest`, sorted group keys). -/
def sortBy {α : Type} (le : α → α → Bool) : List α → List α
  | [] => []
  | a :: l => insertSorted le a (sortBy le l)

/-- The pandas `Series.nsmallest(n)` / `DataFrame.nsmallest(n, col)`: sort
ascending by the key (ties keep first occurrence) and take the first `n`. -/
def nsmallest {α β : Type} [LinearOrder β] (n : Nat) (key : α → β) (l : List α) :
    List α :=
  (sortBy (fun a b => decide (key a ≤ key b)) l).take n

/-- The pandas `nlargest(n)`: sort descending by the key (ties keep first
occurrence) and take the first `n`. -/
def nlargest {α β : Type} [LinearOrder β] (n : Nat) (key : α → β) (l : List α) :
    List α :=
  (sortBy (fun a b => decide (key b ≤ key a)) l).take n

/-- Character comparison. -/
def charLt (a b : Char) : Bool :=
  decide (a < b)

/-- Lexicographic comparison of character lists. -/
def clLe : List Char → List Char → Bool
  | [], _ => true
  | _ :: _, [] => false
  | a :: as, b :: bs => if a = b then clLe as bs else charLt a b

/-- Lexicographic string comparison, modelling the ascending group-key order
that pandas `groupby(..., sort=True)` (the default) produces. -/
def strLe (a b : String) : Bool :=
  clLe a.data b.data

/-- Sorted distinct keys of a list, modelling the index of a pandas
`groupby(key)` aggregation (keys ascending). -/
def groupKeys {α : Type} (key : α → String) (l : List α) : List String :=
  sortBy strLe (dedupByKey id (l.map key))

/-- Rows of one group of a pandas `groupby(key)`. -/
def groupRows {α : Type} (key : α → String) (l : List α) (k : String) : List α :=
  l.filter (fun x => decide (key x = k))

/-- The pandas `Series.value_counts()`: distinct values with their
occurrence counts, sorted by count descending. -/
def valueCounts (l : List String) : List (String × Nat) :=
  sortBy (fun a b => decide (b.2 ≤ a.2))
    ((dedupByKey id l).map (fun k => (k, (l.filter (fun x => decide (x = k))).length)))

/-- Row of `voter_df` as loaded by `load_data` of `quiz_dashboard3.py`, after
the `pd.to_datetime(..., errors='coerce')` coercion of `voting_time`:
a timestamp is modelled as an integer number of seconds, `NaT` as `none`. -/
structure VRow where
  voter_name : String
  question_text : String
  choice : String
  voting_time : Option Int
deriving DecidableEq

/-- Row of the projection `que_ans_df[['que_text', 'que_created_at']]` that
`load_data` merges into the voter table, after timestamp coercion. -/
structure QTRow where
  que_text : String
  que_created_at : Option Int
deriving DecidableEq

/-- Row of `voter_df` after the left merge of `load_data` (lines 42-48 of
`quiz_dashboard3.py`): the ballot enriched with its question's creation time
and the derived response time in seconds. -/
structure EVRow where
  voter_name : String
  question_text : String
  choice : String
  voting_time : Option Int
  que_created_at : Option Int
  response_time : Option Int
deriving DecidableEq

/-- Row of `merged_df` in `calculate_insights`: a ballot joined with a
correct-answer row, carrying the correctness flag
`merged_df['choice'] == merged_df['ans_text']`.  Columns not consulted by
the merged-data metrics (timestamps) are omitted from the record. -/
structure MRow where
  voter_name : String
  question_text : String
  choice : String
  ans_text : String
  is_correct : Bool
deriving DecidableEq

/-- Response time `(voting_time - que_created_at).dt.total_seconds()`:
missing (`NaN`) as soon as either timestamp is missing. -/
def respTime (vt ct : Option Int) : Option Int :=
  match vt, ct with
  | some a, some b => some (a - b)
  | _, _ => none

/-- The left merge of `load_data` (`quiz_dashboard3.py` lines 42-48):
each ballot row is kept; it is repeated once per question-answer row with
matching `que_text` (pandas row multiplication on non-unique keys), or kept
once with missing creation time when no row matches (`how='left'`). -/
def load_merge (voters : List VRow) (qa : List QTRow) : List EVRow :=
  voters.flatMap (fun v =>
    match qa.filter (fun q => decide (q.que_text = v.question_text)) with
    | [] => [⟨v.voter_name, v.question_text, v.choice, v.voting_time, none, none⟩]
    | qs => qs.map (fun q =>
        ⟨v.voter_name, v.question_text, v.choice, v.voting_time,
         q.que_created_at, respTime v.voting_time q.que_created_at⟩))

/-- The inner merge of `calculate_insights` (`quiz_dashboard3.py` lines
71-77): ballots joined to the renamed correct-answer table on
`question_text`, one output row per matching pair, with the correctness
flag computed by exact string equality of `choice` and `ans_text`. -/
def mergeCA (df : List EVRow) (ca : List CARow) : List MRow :=
  df.flatMap (fun b =>
    (ca.filter (fun c => decide (c.question_text = b.question_text))).map
      (fun c => ⟨b.voter_name, b.question_text, b.choice, c.ans_text,
        decide (b.choice = c.ans_text)⟩))

/-- Insight 1 of `calculate_insights`:
`voter_df['voter_name'].value_counts().head(n)`. -/
def active_voters (df : List EVRow) (n : Nat) : List (String × Nat) :=
  (valueCounts (df.map (fun b => b.voter_name))).take n

/-- Insight 5 of `calculate_insights`:
`voter_df['voter_name'].value_counts().tail(n)` — the last `n` entries of
the descending activity ranking. -/
def least_active (df : List EVRow) (n : Nat) : List (String × Nat) :=
  let vc := valueCounts (df.map (fun b => b.voter_name))
  vc.drop (vc.length - n)

/-- The filter `voter_df[voter_df['response_time'].notna()]` used by the
latency-based insights. -/
def notnaRT (df : List EVRow) : List EVRow :=
  df.filter (fun b => b.response_time.isSome)

/-- Response time of a row known to have one (0 as a dummy for missing). -/
def rtVal (b : EVRow) : Int :=
  b.response_time.getD 0

/-- The sort `.sort_values('response_time')` over the non-missing rows. -/
def sortedByRT (df : List EVRow) : List EVRow :=
  sortBy (fun a b => decide (rtVal a ≤ rtVal b)) (notnaRT df)

/-- The expression
`voter_df[voter_df['response_time'].notna()].sort_values('response_time').drop_duplicates(['question_text'])`
of insight 2: the earliest-latency ballot of every question that has at
least one non-missing latency. -/
def firstResponses (df : List EVRow) : List EVRow :=
  dedupByKey (fun b => b.question_text) (sortedByRT df)

/-- Insight 2 of `calculate_insights` (`quiz_dashboard3.py` lines 62-69):
per-voter count of first responses, largest `n`. -/
def early_birds (df : List EVRow) (n : Nat) : List (String × Nat) :=
  nlargest n Prod.snd
    ((groupKeys (fun b => b.voter_name) (firstResponses df)).map (fun v =>
      (v, (groupRows (fun b => b.voter_name) (firstResponses df) v).length)))

/-- Variant of insight 2 as written in `get_questions.py` lines 58-60: the
same chain without the `notna` filter, so rows with missing response time
take part (sorted to the end, `na_position='last'`) and a question all of
whose latencies are missing still keeps one representative row. -/
def firstResponsesGq (df : List EVRow) : List EVRow :=
  dedupByKey (fun b => b.question_text)
    (sortBy (fun a b =>
      match a.response_time, b.response_time with
      | some x, some y => decide (x ≤ y)
      | some _, none => true
      | none, _ => true
      ) df)

/-- Per-question incorrect-answer ratio table of insight 3:
`merged_df.groupby('question_text').agg(incorrect_ratio=('is_correct', lambda x: (~x).mean()))`. -/
def incorrectRatios (merged : List MRow) : List (String × ℚ) :=
  (groupKeys (fun m => m.question_text) merged).map (fun q =>
    let g := groupRows (fun m => m.question_text) merged q
    (q, ((g.filter (fun m => !m.is_correct)).length : ℚ) / (g.length : ℚ)))

/-- Insight 3 of `calculate_insights`: questions ranked by incorrect ratio,
descending, top `n`. -/
def incorrect_questions (merged : List MRow) (n : Nat) : List (String × ℚ) :=
  nlargest n Prod.snd (incorrectRatios merged)

/-- Per-question correct-answer ratio table of insight 4:
`merged_df.groupby('question_text').agg(correct_ratio=('is_correct', 'mean'))`. -/
def correctRatios (merged : List MRow) : List (String × ℚ) :=
  (groupKeys (fun m => m.question_text) merged).map (fun q =>
    let g := groupRows (fun m => m.question_text) merged q
    (q, ((g.filter (fun m => m.is_correct)).length : ℚ) / (g.length : ℚ)))

/-- Insight 4 of `calculate_insights`:
`.query('correct_ratio == 1.0').head(n)`. -/
def easy_questions (merged : List MRow) (n : Nat) : List (String × ℚ) :=
  ((correctRatios merged).filter (fun p => decide (p.2 = 1))).take n

/-- Largest element of a list of integers (`none` on the empty list),
modelling a pandas group `max` with `skipna` semantics applied to the
already-filtered values. -/
def maxOpt : List Int → Option Int
  | [] => none
  | a :: l => some (l.foldl max a)

/-- Per-voter most recent voting timestamp of insight 6:
`voter_df.groupby('voter_name')['voting_time'].max()`; a voter whose
timestamps are all missing yields `NaT`, which the subsequent `nsmallest`
drops. -/
def lastParticipation (df : List EVRow) : List (String × Int) :=
  (groupKeys (fun b => b.voter_name) df).filterMap (fun v =>
    match maxOpt ((groupRows (fun b => b.voter_name) df v).filterMap
        (fun b => b.voting_time)) with
    | some t => some (v, t)
    | none => none)

/-- Insight 6 of `calculate_insights`: oldest last-participation first. -/
def inactive_followers (df : List EVRow) (n : Nat) : List (String × Int) :=
  nsmallest n Prod.snd (lastParticipation df)

/-- Row of the good-performers table of insight 7: per-voter ballot count,
correct count, and accuracy `sum / count * 100`. -/
structure GPRow where
  voter_name : String
  count : Nat
  sum : Nat
  accuracy : ℚ
deriving DecidableEq

/-- Per-voter aggregation of insight 7:
`merged_df.groupby('voter_name')['is_correct'].agg(['count', 'sum']).assign(accuracy=lambda x: (x['sum'] / x['count'] * 100))`. -/
def goodPerfTable (merged : List MRow) : List GPRow :=
  (groupKeys (fun m => m.voter_name) merged).map (fun v =>
    let g := groupRows (fun m => m.voter_name) merged v
    let s := (g.filter (fun m => m.is_correct)).length
    ⟨v, g.length, s, (s : ℚ) / (g.length : ℚ) * 100⟩)

/-- Insight 7 of `calculate_insights` (`quiz_dashboard3.py` lines 100-105):
voters ranked by accuracy, descending, top `n`. -/
def good_performers (merged : List MRow) (n : Nat) : List GPRow :=
  nlargest n (fun e => e.accuracy) (goodPerfTable merged)

/-- Insight 8 of `calculate_insights`:
`voter_df['question_text'].value_counts().nsmallest(n)`. -/
def least_voted (df : List EVRow) (n : Nat) : List (String × Nat) :=
  nsmallest n Prod.snd (valueCounts (df.map (fun b => b.question_text)))

/-- Smallest element of a non-empty list of integers (0 as a dummy). -/
def minIntD : List Int → Int
  | [] => 0
  | a :: l => l.foldl min a

/-- Largest element of a non-empty list of integers (0 as a dummy). -/
def maxIntD : List Int → Int
  | [] => 0
  | a :: l => l.foldl max a

/-- Insight 9 of `calculate_insights`: per-question minimum non-missing
response time, smallest `n`. -/
def fast_responses (df : List EVRow) (n : Nat) : List (String × Int) :=
  nsmallest n Prod.snd
    ((groupKeys (fun b => b.question_text) (notnaRT df)).map (fun q =>
      (q, minIntD ((groupRows (fun b => b.question_text) (notnaRT df) q).map rtVal))))

/-- Insight 10 of `calculate_insights`: per-question maximum non-missing
response time, largest `n`. -/
def slow_responses (df : List EVRow) (n : Nat) : List (String × Int) :=
  nlargest n Prod.snd
    ((groupKeys (fun b => b.question_text) (notnaRT df)).map (fun q =>
      (q, maxIntD ((groupRows (fun b => b.question_text) (notnaRT df) q).map rtVal))))

theorem insertSorted_perm {α : Type} (le : α → α → Bool) (a : α) (l : List α) :
    List.Perm (insertSorted le a l) (a :: l) := by
  induction l with
  | nil => simp [insertSorted]
  | cons b l ih =>
      simp only [insertSorted]
      split
      · exact List.Perm.refl _
      · exact List.Perm.trans (List.Perm.cons b ih) (List.Perm.swap a b l)

theorem sortBy_perm {α : Type} (le : α → α → Bool) (l : List α) :
    List.Perm (sortBy le l) l := by
  induction l with
  | nil => simp [sortBy]
  | cons a l ih =>
      exact List.Perm.trans (insertSorted_perm le a (sortBy le l)) (List.Perm.cons a ih)

theorem mem_sortBy {α : Type} {le : α → α → Bool} {l : List α} {a : α} :
    a ∈ sortBy le l ↔ a ∈ l :=
  (sortBy_perm le l).mem_iff

theorem insertSorted_pairwise {α : Type} {le : α → α → Bool}
    (htrans : ∀ a b c, le a b = true → le b c = true → le a c = true)
    (htot : ∀ a b, le a b = true ∨ le b a = true)
    {a : α} {l : List α} (h : List.Pairwise (fun x y => le x y = true) l) :
    List.Pairwise (fun x y => le x y = true) (insertSorted le a l) := by
  induction l with
  | nil => simp [insertSorted]
  | cons b l ih =>
      simp only [insertSorted]
      rcases List.pairwise_cons.mp h with ⟨hb, hl⟩
      split
      · rename_i hab
        refine List.pairwise_cons.mpr ⟨?_, h⟩
        intro x hx
        rcases List.mem_cons.mp hx with hxb | hxl
        · exact hxb ▸ hab
        · exact htrans a b x hab (hb x hxl)
      · rename_i hab
        have hba : le b a = true := by
          rcases htot a b with hc | hc
          · exact absurd hc hab
          · exact hc
        refine List.pairwise_cons.mpr ⟨?_, ih hl⟩
        intro x hx
        rcases List.mem_cons.mp ((insertSorted_perm le a l).mem_iff.mp hx) with hxa | hxl
        · exact hxa ▸ hba
        · exact hb x hxl

theorem sortBy_pairwise {α : Type} {le : α → α → Bool}
    (htrans : ∀ a b c, le a b = true → le b c = true → le a c = true)
    (htot : ∀ a b, le a b = true ∨ le b a = true) (l : List α) :
    List.Pairwise (fun x y => le x y = true) (sortBy le l) := by
  induction l with
  | nil => simp [sortBy]
  | cons a l ih => exact insertSorted_pairwise htrans htot ih

theorem nsmallest_sorted {α β : Type} [LinearOrder β] (n : Nat) (key : α → β)
    (l : List α) :
    List.Pairwise (fun a b => key a ≤ key b) (nsmallest n key l) := by
  have h := @sortBy_pairwise _ (fun a b => decide (key a ≤ key b))
    (fun a b c hab hbc => by
      simp only [decide_eq_true_eq] at *
      exact le_trans hab hbc)
    (fun a b => by
      simp only [decide_eq_true_eq]
      exact le_total (key a) (key b)) l
  have h2 : List.Pairwise (fun a b => key a ≤ key b)
      (sortBy (fun a b => decide (key a ≤ key b)) l) :=
    h.imp (fun hx => by simpa using hx)
  exact h2.sublist (List.take_sublist n _)

theorem nlargest_sorted {α β : Type} [LinearOrder β] (n : Nat) (key : α → β)
    (l : List α) :
    List.Pairwise (fun a b => key b ≤ key a) (nlargest n key l) := by
  have h := @sortBy_pairwise _ (fun a b => decide (key b ≤ key a))
    (fun a b c hab hbc => by
      simp only [decide_eq_true_eq] at *
      exact le_trans hbc hab)
    (fun a b => by
      simp only [decide_eq_true_eq]
      exact le_total (key b) (key a)) l
  have h2 : List.Pairwise (fun a b => key b ≤ key a)
      (sortBy (fun a b => decide (key b ≤ key a)) l) :=
    h.imp (fun hx => by simpa using hx)
  exact h2.sublist (List.take_sublist n _)

theorem nsmallest_length_le {α β : Type} [LinearOrder β] (n : Nat) (key : α → β)
    (l : List α) : (nsmallest n key l).length ≤ n :=
  List.length_take_le n _

theorem nlargest_length_le {α β : Type} [LinearOrder β] (n : Nat) (key : α → β)
    (l : List α) : (nlargest n key l).length ≤ n :=
  List.length_take_le n _

theorem mem_nsmallest {α β : Type} [LinearOrder β] {n : Nat} {key : α → β}
    {l : List α} {a : α} (h : a ∈ nsmallest n key l) : a ∈ l :=
  mem_sortBy.mp ((List.take_sublist n _).subset h)

theorem mem_nlargest {α β : Type} [LinearOrder β] {n : Nat} {key : α → β}
    {l : List α} {a : α} (h : a ∈ nlargest n key l) : a ∈ l :=
  mem_sortBy.mp ((List.take_sublist n _).subset h)

theorem valueCounts_sorted (l : List String) :
    List.Pairwise (fun a b => b.2 ≤ a.2) (valueCounts l) := by
  have h := @sortBy_pairwise (String × Nat) (fun a b => decide (b.2 ≤ a.2))
    (fun a b c hab hbc => by
      simp only [decide_eq_true_eq] at *
      exact le_trans hbc hab)
    (fun a b => by
      simp only [decide_eq_true_eq]
      exact le_total b.2 a.2)
    ((dedupByKey id l).map (fun k => (k, (l.filter (fun x => decide (x = k))).length)))
  exact h.imp (fun hx => by simpa using hx)

theorem mem_of_mem_dedupAux {α κ : Type} [DecidableEq κ] {key : α → κ}
    {seen : List κ} {l : List α} {x : α} (h : x ∈ dedupByKeyAux key seen l) :
    x ∈ l := by
  induction l generalizing seen with
  | nil => simp [dedupByKeyAux] at h
  | cons a l ih =>
      simp only [dedupByKeyAux] at h
      split at h
      · exact List.mem_cons_of_mem a (ih h)
      · rcases List.mem_cons.mp h with hxa | hx
        · exact hxa ▸ List.mem_cons_self a l
        · exact List.mem_cons_of_mem a (ih hx)

theorem key_not_seen_of_mem_dedupAux {α κ : Type} [DecidableEq κ] {key : α → κ}
    {seen : List κ} {l : List α} {x : α} (h : x ∈ dedupByKeyAux key seen l) :
    key x ∉ seen := by
  induction l generalizing seen with
  | nil => simp [dedupByKeyAux] at h
  | cons a l ih =>
      simp only [dedupByKeyAux] at h
      split at h
      · exact ih h
      · rcases List.mem_cons.mp h with hxa | hx
        · rename_i hns
          exact hxa ▸ hns
        · intro hc
          exact ih hx (List.mem_cons_of_mem _ hc)

theorem mem_of_mem_dedupByKey {α κ : Type} [DecidableEq κ] {key : α → κ}
    {l : List α} {x : α} (h : x ∈ dedupByKey key l) : x ∈ l :=
  mem_of_mem_dedupAux h

theorem mem_keys_dedupAux {α κ : Type} [DecidableEq κ] {key : α → κ}
    {seen : List κ} {l : List α} {k : κ} :
    k ∈ (dedupByKeyAux key seen l).map key ↔ k ∈ l.map key ∧ k ∉ seen := by
  induction l generalizing seen with
  | nil => simp [dedupByKeyAux]
  | cons a l ih =>
      simp only [dedupByKeyAux]
      split
      · rename_i hs
        rw [ih]
        simp only [List.map_cons, List.mem_cons]
        constructor
        · rintro ⟨hm, hns⟩
          exact ⟨Or.inr hm, hns⟩
        · rintro ⟨hm | hm, hns⟩
          · exact absurd (hm ▸ hs) hns
          · exact ⟨hm, hns⟩
      · rename_i hs
        simp only [List.map_cons, List.mem_cons, ih]
        constructor
        · rintro (hk | ⟨hm, hns⟩)
          · exact ⟨Or.inl hk, hk ▸ hs⟩
          · refine ⟨Or.inr hm, fun hc => hns (Or.inr hc)⟩
        · rintro ⟨hk | hm, hns⟩
          · exact Or.inl hk
          · by_cases hka : k = key a
            · exact Or.inl hka
            · exact Or.inr ⟨hm, by simp [hka, hns]⟩

theorem nodup_keys_dedupAux {α κ : Type} [DecidableEq κ] {key : α → κ}
    (seen : List κ) (l : List α) :
    ((dedupByKeyAux key seen l).map key).Nodup := by
  induction l generalizing seen with
  | nil => simp [dedupByKeyAux]
  | cons a l ih =>
      simp only [dedupByKeyAux]
      split
      · exact ih seen
      · simp only [List.map_cons, List.nodup_cons]
        refine ⟨fun hc => ?_, ih _⟩
        exact (mem_keys_dedupAux.mp hc).2 (List.mem_cons_self _ _)

theorem dedupAux_first {α κ : Type} [DecidableEq κ] {key : α → κ}
    {seen : List κ} {l : List α} {x : α} (h : x ∈ dedupByKeyAux key seen l) :
    ∃ l1 l2, l = l1 ++ x :: l2 ∧ ∀ a ∈ l1, key a ∈ seen ∨ key a ≠ key x := by
  induction l generalizing seen with
  | nil => simp [dedupByKeyAux] at h
  | cons a l ih =>
      simp only [dedupByKeyAux] at h
      split at h
      · rename_i hs
        rcases ih h with ⟨l1, l2, hl, hkeys⟩
        refine ⟨a :: l1, l2, by simp [hl], ?_⟩
        intro b hb
        rcases List.mem_cons.mp hb with hba | hbl
        · exact hba ▸ Or.inl hs
        · exact hkeys b hbl
      · rename_i hs
        rcases List.mem_cons.mp h with hxa | hx
        · exact ⟨[], l, by simp [hxa], by simp⟩
        · have hknotin : key x ∉ key a :: seen := key_not_seen_of_mem_dedupAux hx
          rcases ih hx with ⟨l1, l2, hl, hkeys⟩
          refine ⟨a :: l1, l2, by simp [hl], ?_⟩
          intro b hb
          rcases List.mem_cons.mp hb with hba | hbl
          · refine Or.inr (hba ▸ fun hc => ?_)
            exact hknotin (hc ▸ List.mem_cons_self _ _)
          · rcases hkeys b hbl with hbs | hbne
            · rcases List.mem_cons.mp hbs with hbk | hbseen
              · refine Or.inr (fun hc => ?_)
                exact hknotin ((hc ▸ hbk) ▸ List.mem_cons_self _ _)
              · exact Or.inl hbseen
            · exact Or.inr hbne

theorem dedupByKey_first {α κ : Type} [DecidableEq κ] {key : α → κ}
    {l : List α} {x : α} (h : x ∈ dedupByKey key l) :
    ∃ l1 l2, l = l1 ++ x :: l2 ∧ ∀ a ∈ l1, key a ≠ key x := by
  rcases dedupAux_first h with ⟨l1, l2, hl, hkeys⟩
  refine ⟨l1, l2, hl, fun a ha => ?_⟩
  rcases hkeys a ha with hc | hc
  · simp at hc
  · exact hc

theorem dedupAux_filter_seen {α κ : Type} [DecidableEq κ] {key : α → κ}
    {q : κ} {seen : List κ} {l : List α} (hq : q ∈ seen) :
    (dedupByKeyAux key seen l).filter (fun x => decide (key x = q)) = [] := by
  induction l generalizing seen with
  | nil => simp [dedupByKeyAux]
  | cons a l ih =>
      simp only [dedupByKeyAux]
      split
      · exact ih hq
      · rename_i hs
        have hka : ¬ key a = q := fun hc => hs (hc ▸ hq)
        simp only [List.filter_cons, decide_eq_true_eq]
        rw [if_neg (by simpa using hka)]
        exact ih (List.mem_cons_of_mem _ hq)

theorem dedupAux_filter_one {α κ : Type} [DecidableEq κ] {key : α → κ}
    {q : κ} {seen : List κ} {l : List α} (hq : q ∉ seen) (hm : q ∈ l.map key) :
    ∃ x, (dedupByKeyAux key seen l).filter (fun y => decide (key y = q)) = [x]
      ∧ key x = q := by
  induction l generalizing seen with
  | nil => simp at hm
  | cons a l ih =>
      simp only [dedupByKeyAux]
      split
      · rename_i hs
        have hka : key a ≠ q := fun hc => hq (hc ▸ hs)
        have hm2 : q ∈ l.map key := by
          rcases (show q = key a ∨ ∃ b ∈ l, key b = q by simpa using hm) with hk | hk
          · exact absurd hk.symm hka
          · simpa using hk
        exact ih hq hm2
      · rename_i hs
        by_cases hka : key a = q
        · refine ⟨a, ?_, hka⟩
          simp only [List.filter_cons, decide_eq_true_eq]
          rw [if_pos hka]
          rw [dedupAux_filter_seen (hka ▸ List.mem_cons_self _ _)]
        · have hm2 : q ∈ l.map key := by
            rcases (show q = key a ∨ ∃ b ∈ l, key b = q by simpa using hm) with hk | hk
            · exact absurd hk.symm hka
            · simpa using hk
          have hq2 : q ∉ key a :: seen := by
            intro hc
            rcases List.mem_cons.mp hc with h1 | h2
            · exact hka h1.symm
            · exact hq h2
          rcases ih hq2 hm2 with ⟨x, hx, hkx⟩
          refine ⟨x, ?_, hkx⟩
          simp only [List.filter_cons, decide_eq_true_eq]
          rw [if_neg (by simpa using hka)]
          exact hx

theorem dedupByKey_filter_nil {α κ : Type} [DecidableEq κ] {key : α → κ}
    {q : κ} {l : List α} (hm : q ∉ l.map key) :
    (dedupByKey key l).filter (fun y => decide (key y = q)) = [] := by
  rw [List.filter_eq_nil_iff]
  intro a ha
  simp only [decide_eq_true_eq]
  intro hc
  exact hm (hc ▸ List.mem_map_of_mem key (mem_of_mem_dedupByKey ha))

theorem foldl_map_comm {α β : Type} (g : β → α → α) (l : List β) (t : List α) :
    l.foldl (fun t b => t.map (g b)) t = t.map (fun a => l.foldl (fun a b => g b a) a) := by
  induction l generalizing t with
  | nil => simp
  | cons b l ih =>
      simp only [List.foldl_cons]
      rw [ih, List.map_map]
      rfl

theorem setVotesRow_que_text (voters : List BallotRow) (q c : String) (r : QARow) :
    (setVotesRow voters q c r).que_text = r.que_text := by
  simp only [setVotesRow]
  split <;> rfl

theorem setVotesRow_ans_text (voters : List BallotRow) (q c : String) (r : QARow) :
    (setVotesRow voters q c r).ans_text = r.ans_text := by
  simp only [setVotesRow]
  split <;> rfl

theorem innerFold_char (voters : List BallotRow) (q : String) (cs : List String)
    (r : QARow) :
    cs.foldl (fun r c => setVotesRow voters q c r) r =
      if r.que_text = q ∧ r.ans_text ∈ cs then
        { r with votes := Val.int ((countQC voters q r.ans_text : Nat) : Int) }
      else r := by
  induction cs generalizing r with
  | nil => simp
  | cons c cs ih =>
      simp only [List.foldl_cons]
      by_cases h : r.que_text = q ∧ r.ans_text = c
      · have hr : setVotesRow voters q c r =
            { r with votes := Val.int ((countQC voters q r.ans_text : Nat) : Int) } := by
          unfold setVotesRow
          rw [if_pos h, h.2]
        have hcond : r.que_text = q ∧ r.ans_text ∈ c :: cs :=
          ⟨h.1, List.mem_cons.mpr (Or.inl h.2)⟩
        rw [hr, ih, if_pos hcond]
        split <;> rfl
      · have hr : setVotesRow voters q c r = r := by
          simp only [setVotesRow, if_neg h]
        rw [hr, ih]
        by_cases hq : r.que_text = q
        · have hc : r.ans_text ≠ c := fun hcc => h ⟨hq, hcc⟩
          simp only [List.mem_cons]
          by_cases hm : r.ans_text ∈ cs
          · rw [if_pos ⟨hq, hm⟩, if_pos ⟨hq, Or.inr hm⟩]
          · rw [if_neg (fun hx => hm hx.2), if_neg (fun hx => ?_)]
            rcases hx.2 with h1 | h2
            · exact hc h1
            · exact hm h2
        · rw [if_neg (fun hx => hq hx.1), if_neg (fun hx => hq hx.1)]

theorem reconcileQuestion_eq_map (voters : List BallotRow) (q : String)
    (t : List QARow) :
    reconcileQuestion voters q t =
      t.map (fun r => (choicesFor voters q).foldl
        (fun r c => setVotesRow voters q c r) r) := by
  unfold reconcileQuestion setVotes
  exact foldl_map_comm (fun c r => setVotesRow voters q c r) (choicesFor voters q) t

/-- Net per-row effect of processing one question of the outer loop. -/
def applyQ (voters : List BallotRow) (q : String) (r : QARow) : QARow :=
  if r.que_text = q ∧ r.ans_text ∈ choicesFor voters q then
    { r with votes := Val.int ((countQC voters q r.ans_text : Nat) : Int) }
  else r

theorem applyQ_que_text (voters : List BallotRow) (q : String) (r : QARow) :
    (applyQ voters q r).que_text = r.que_text := by
  simp only [applyQ]
  split <;> rfl

theorem applyQ_ans_text (voters : List BallotRow) (q : String) (r : QARow) :
    (applyQ voters q r).ans_text = r.ans_text := by
  simp only [applyQ]
  split <;> rfl

theorem outerFold_char (voters : List BallotRow) (qs : List String) (r : QARow) :
    qs.foldl (fun r q => applyQ voters q r) r =
      if r.que_text ∈ qs ∧ r.ans_text ∈ choicesFor voters r.que_text then
        { r with votes := Val.int ((countQC voters r.que_text r.ans_text : Nat) : Int) }
      else r := by
  induction qs generalizing r with
  | nil => simp
  | cons q qs ih =>
      simp only [List.foldl_cons]
      by_cases h : r.que_text = q ∧ r.ans_text ∈ choicesFor voters q
      · have hr : applyQ voters q r =
            { r with votes := Val.int ((countQC voters r.que_text r.ans_text : Nat) : Int) } := by
          unfold applyQ
          rw [if_pos h, h.1]
        have hc2 : r.ans_text ∈ choicesFor voters r.que_text := by
          rw [h.1]
          exact h.2
        have hcond : r.que_text ∈ q :: qs ∧ r.ans_text ∈ choicesFor voters r.que_text :=
          ⟨List.mem_cons.mpr (Or.inl h.1), hc2⟩
        rw [hr, ih, if_pos hcond]
        split <;> rfl
      · have hr : applyQ voters q r = r := by
          simp only [applyQ, if_neg h]
        rw [hr, ih]
        by_cases hq : r.que_text = q
        · have hnc : r.ans_text ∉ choicesFor voters r.que_text := by
            intro hc
            exact h ⟨hq, hq ▸ hc⟩
          rw [if_neg (fun hx => hnc hx.2), if_neg (fun hx => hnc hx.2)]
        · simp only [List.mem_cons]
          by_cases hm : r.que_text ∈ qs ∧ r.ans_text ∈ choicesFor voters r.que_text
          · rw [if_pos hm, if_pos ⟨Or.inr hm.1, hm.2⟩]
          · rw [if_neg hm, if_neg (fun hx => hm ⟨?_, hx.2⟩)]
            rcases hx.1 with h1 | h2
            · exact absurd h1 hq
            · exact h2

theorem reconcile_eq_map (qa : List QARow) (voters : List BallotRow) :
    reconcile qa voters =
      qa.map (fun r =>
        if r.que_text ∈ qa.map (fun r => r.que_text)
            ∧ r.ans_text ∈ choicesFor voters r.que_text then
          { r with votes := Val.int ((countQC voters r.que_text r.ans_text : Nat) : Int) }
        else r) := by
  unfold reconcile
  have h1 : (fun (t : List QARow) (q : String) => reconcileQuestion voters q t) =
      (fun t q => t.map (applyQ voters q)) := by
    funext t q
    rw [reconcileQuestion_eq_map]
    apply List.map_congr_left
    intro r hr
    rw [innerFold_char]
    rfl
  rw [h1, foldl_map_comm (fun q r => applyQ voters q r)]
  apply List.map_congr_left
  intro r hr
  rw [outerFold_char]

theorem mem_choicesFor {voters : List BallotRow} {q c : String} :
    c ∈ choicesFor voters q ↔ 0 < countQC voters q c := by
  unfold choicesFor countQC
  constructor
  · intro h
    have hc : c ∈ (voters.filter (fun b => decide (b.question_text = q))).map
        (fun b => b.choice) := mem_of_mem_dedupByKey h
    rcases List.mem_map.mp hc with ⟨b, hb, hbc⟩
    rcases List.mem_filter.mp hb with ⟨hbv, hbq⟩
    rw [List.length_pos]
    intro hnil
    have : b ∈ voters.filter (fun b => decide (b.question_text = q ∧ b.choice = c)) := by
      rw [List.mem_filter]
      refine ⟨hbv, ?_⟩
      simp only [decide_eq_true_eq] at hbq
      simp [hbq, hbc]
    rw [hnil] at this
    simp at this
  · intro h
    rw [List.length_pos] at h
    rcases List.exists_mem_of_ne_nil _ h with ⟨b, hb⟩
    rcases List.mem_filter.mp hb with ⟨hbv, hcond⟩
    simp only [decide_eq_true_eq] at hcond
    have hmem : c ∈ (voters.filter (fun b => decide (b.question_text = q))).map
        (fun b => b.choice) := by
      rw [List.mem_map]
      refine ⟨b, ?_, hcond.2⟩
      rw [List.mem_filter]
      exact ⟨hbv, by simp [hcond.1]⟩
    have hiff := @mem_keys_dedupAux String String _ (@id String) []
      ((voters.filter (fun b => decide (b.question_text = q))).map (fun b => b.choice)) c
    simp only [List.map_id] at hiff
    exact hiff.mpr ⟨hmem, by simp⟩


/-- Net per-row effect of the whole reconciliation loop on a row of the
question-answer table. -/
def reconRowF (qa : List QARow) (voters : List BallotRow) (r : QARow) : QARow :=
  if r.que_text ∈ qa.map (fun r => r.que_text)
      ∧ r.ans_text ∈ choicesFor voters r.que_text then
    { r with votes := Val.int ((countQC voters r.que_text r.ans_text : Nat) : Int) }
  else r

theorem reconcile_eq_mapF (qa : List QARow) (voters : List BallotRow) :
    reconcile qa voters = qa.map (reconRowF qa voters) :=
  reconcile_eq_map qa voters

theorem reconRowF_que_text (qa : List QARow) (voters : List BallotRow) (r : QARow) :
    (reconRowF qa voters r).que_text = r.que_text := by
  unfold reconRowF
  split <;> rfl

theorem reconRowF_ans_text (qa : List QARow) (voters : List BallotRow) (r : QARow) :
    (reconRowF qa voters r).ans_text = r.ans_text := by
  unfold reconRowF
  split <;> rfl

theorem reconRowF_que_created_at (qa : List QARow) (voters : List BallotRow)
    (r : QARow) :
    (reconRowF qa voters r).que_created_at = r.que_created_at := by
  unfold reconRowF
  split <;> rfl

theorem reconcile_filter_qc (qa : List QARow) (voters : List BallotRow)
    (q c : String) :
    qa.filter ((fun r : QARow => decide (r.que_text = q ∧ r.ans_text = c))
        ∘ reconRowF qa voters)
      = qa.filter (fun r : QARow => decide (r.que_text = q ∧ r.ans_text = c)) := by
  apply List.filter_congr
  intro r hr
  simp only [Function.comp_apply, reconRowF_que_text, reconRowF_ans_text]

theorem reconcile_tallies_pos (qa : List QARow) (voters : List BallotRow)
    (q c : String) (hpos : 0 < countQC voters q c) :
    tallies (reconcile qa voters) q c =
      (tallies qa q c).map (fun _ => Val.int ((countQC voters q c : Nat) : Int)) := by
  unfold tallies
  rw [reconcile_eq_mapF, List.filter_map, reconcile_filter_qc, List.map_map,
    List.map_map]
  apply List.map_congr_left
  intro r hr
  rcases List.mem_filter.mp hr with ⟨hrqa, hcond⟩
  simp only [decide_eq_true_eq] at hcond
  simp only [Function.comp_apply]
  unfold reconRowF
  have hmemq : r.que_text ∈ qa.map (fun r => r.que_text) :=
    List.mem_map_of_mem (fun r => r.que_text) hrqa
  have hcc : r.ans_text ∈ choicesFor voters r.que_text := by
    rw [hcond.1, hcond.2]
    exact mem_choicesFor.mpr hpos
  rw [if_pos ⟨hmemq, hcc⟩]
  show Val.int ((countQC voters r.que_text r.ans_text : Nat) : Int) =
    Val.int ((countQC voters q c : Nat) : Int)
  rw [hcond.1, hcond.2]

theorem reconcile_tallies_zero (qa : List QARow) (voters : List BallotRow)
    (q c : String) (hz : countQC voters q c = 0) :
    tallies (reconcile qa voters) q c = tallies qa q c := by
  unfold tallies
  rw [reconcile_eq_mapF, List.filter_map, reconcile_filter_qc, List.map_map]
  apply List.map_congr_left
  intro r hr
  rcases List.mem_filter.mp hr with ⟨hrqa, hcond⟩
  simp only [decide_eq_true_eq] at hcond
  simp only [Function.comp_apply]
  unfold reconRowF
  rw [if_neg ?_]
  intro hx
  have hc : r.ans_text ∈ choicesFor voters r.que_text := hx.2
  rw [hcond.1, hcond.2] at hc
  have := mem_choicesFor.mp hc
  omega

/-- C1, counterexample: in a table whose (question, choice) pair `("Q1", "B")`
has zero matching ballot rows, the reconciliation loop leaves the original
string-encoded tally `"7 votes"` in place instead of writing the count `0`,
so the corrected tally does not equal the ballot count in the zero case. -/
theorem C1_counterexample :
    tallies (reconcile [⟨"Q1", Val.NaT, "B", Val.str "7 votes"⟩] []) "Q1" "B"
      = [Val.str "7 votes"]
    ∧ countQC [] "Q1" "B" = 0
    ∧ Val.str "7 votes" ≠ Val.int 0 :=
  ⟨by decide, by decide, by decide⟩

/-- C1 (amended): for every question `Q` and choice `C` appearing in the
question/choice table, if at least one ballot row matches `(Q, C)` exactly
then every tally for `(Q, C)` in the reconciled table equals the number of
matching ballot rows (regardless of the original tally field's encoding,
which is overwritten); if no ballot row matches, the original tally values
are kept unchanged rather than being overwritten with zero. -/
theorem C1_tally_reconciliation (qa : List QARow) (voters : List BallotRow)
    (q c : String) :
    (0 < countQC voters q c →
      tallies (reconcile qa voters) q c =
        (tallies qa q c).map (fun _ => Val.int ((countQC voters q c : Nat) : Int)))
    ∧ (countQC voters q c = 0 →
      tallies (reconcile qa voters) q c = tallies qa q c) :=
  ⟨reconcile_tallies_pos qa voters q c, reconcile_tallies_zero qa voters q c⟩

/-- Witness for C1: with one matching ballot, the stale tally `"7 votes"` is
overwritten by the recount `1`. -/
theorem C1_tally_reconciliation_witness :
    0 < countQC [⟨"v1", "Q1", "A", Val.NaT, Val.NaT⟩] "Q1" "A"
    ∧ tallies (reconcile [⟨"Q1", Val.NaT, "A", Val.str "7 votes"⟩]
        [⟨"v1", "Q1", "A", Val.NaT, Val.NaT⟩]) "Q1" "A"
      = (tallies [⟨"Q1", Val.NaT, "A", Val.str "7 votes"⟩] "Q1" "A").map
          (fun _ => Val.int ((countQC [⟨"v1", "Q1", "A", Val.NaT, Val.NaT⟩]
            "Q1" "A" : Nat) : Int)) :=
  ⟨by decide,
   (C1_tally_reconciliation [⟨"Q1", Val.NaT, "A", Val.str "7 votes"⟩]
     [⟨"v1", "Q1", "A", Val.NaT, Val.NaT⟩] "Q1" "A").1 (by decide)⟩

/-- C9, counterexample: after the reconciliation loop runs, the module's
question-answer table no longer holds the raw rows — the loop overwrote the
`votes` field of the shared table in place (no untouched raw copy and no
separate corrected table exist in the module). -/
theorem C9_counterexample :
    (reconcileState ⟨[⟨"Q1", Val.NaT, "A", Val.str "5 votes"⟩],
        [⟨"v1", "Q1", "A", Val.int 1, Val.NaT⟩], []⟩).que_ans_df
      ≠ [⟨"Q1", Val.NaT, "A", Val.str "5 votes"⟩] := by decide

/-- C9 (amended): the reconciliation loop's only effect on the module state
is to rewrite the `votes` field of the question-answer table in place: the
ballot table and the correct-answer table are left unchanged, and every
question-answer row keeps its position, its `que_text`, its `ans_text` and
its `que_created_at`, only the tally possibly changing. -/
theorem C9_reconcile_frame (s : ModuleState) :
    (reconcileState s).voter_df = s.voter_df
    ∧ (reconcileState s).correct_answers_df = s.correct_answers_df
    ∧ List.Forall₂ (fun r r2 : QARow =>
        r2.que_text = r.que_text ∧ r2.ans_text = r.ans_text ∧
          r2.que_created_at = r.que_created_at)
      s.que_ans_df (reconcileState s).que_ans_df := by
  refine ⟨rfl, rfl, ?_⟩
  show List.Forall₂ _ s.que_ans_df (reconcile s.que_ans_df s.voter_df)
  rw [reconcile_eq_mapF]
  rw [List.forall₂_map_right_iff]
  rw [List.forall₂_same]
  intro r hr
  exact ⟨reconRowF_que_text _ _ r, reconRowF_ans_text _ _ r,
    reconRowF_que_created_at _ _ r⟩

/-- The deduplication
`que_ans_df = que_ans_df.drop_duplicates(subset=['que_text'])` of
`get_questions.py` line 11, on the projection of the table that the later
pipeline consumes. -/
def dropDuplicatesQueText (l : List QTRow) : List QTRow :=
  dedupByKey (fun r => r.que_text) l

/-- C6, counterexample: two rows with the same question text and creation
timestamps 5 and 3 collapse to the FIRST row (timestamp 5), not to the row
with the earliest creation timestamp (3 < 5), refuting the
earliest-creation-time-wins part of the claim. -/
theorem C6_counterexample :
    dropDuplicatesQueText [⟨"Q1", some 5⟩, ⟨"Q1", some 3⟩] = [⟨"Q1", some 5⟩]
    ∧ (3 : Int) < 5 :=
  ⟨by decide, by decide⟩

/-- C6 (amended): question normalization collapses duplicate rows to a single
representative per distinct question text — the distinct texts are exactly
preserved and appear without repetition — but the representative is the
FIRST row of the table with that text (pandas `drop_duplicates` keeps the
first occurrence), carrying that row's creation timestamp, not necessarily
the earliest of the duplicates' timestamps. -/
theorem C6_drop_duplicates (l : List QTRow) :
    ((dropDuplicatesQueText l).map (fun r => r.que_text)).Nodup
    ∧ (∀ q, q ∈ (dropDuplicatesQueText l).map (fun r => r.que_text)
        ↔ q ∈ l.map (fun r => r.que_text))
    ∧ (∀ r, r ∈ dropDuplicatesQueText l →
        l.find? (fun a => decide (a.que_text = r.que_text)) = some r) := by
  refine ⟨nodup_keys_dedupAux [] l, ?_, ?_⟩
  · intro q
    constructor
    · intro h
      rcases List.mem_map.mp h with ⟨r, hr, hrq⟩
      exact hrq ▸ List.mem_map_of_mem _ (mem_of_mem_dedupByKey hr)
    · intro h
      have := @mem_keys_dedupAux QTRow String _ (fun r : QTRow => r.que_text) [] l q
      exact this.mpr ⟨h, by simp⟩
  · intro r hr
    rcases dedupByKey_first hr with ⟨l1, l2, hl, hkeys⟩
    rw [hl, List.find?_append]
    have h1 : l1.find? (fun a => decide (a.que_text = r.que_text)) = none := by
      rw [List.find?_eq_none]
      intro x hx
      simp only [decide_eq_true_eq]
      exact hkeys x hx
    have h2 : (r :: l2).find? (fun a => decide (a.que_text = r.que_text)) = some r := by
      have hp : (fun a : QTRow => decide (a.que_text = r.que_text)) r = true := by simp
      simp [List.find?_cons, hp]
    rw [h1, h2]
    rfl

/-- Witness for C6: on a concrete duplicated table, the representative of
`"Q1"` in the deduplicated output is the first matching row of the input. -/
theorem C6_drop_duplicates_witness :
    (⟨"Q1", some 5⟩ : QTRow) ∈ dropDuplicatesQueText [⟨"Q1", some 5⟩, ⟨"Q1", some 3⟩]
    ∧ ([⟨"Q1", some 5⟩, ⟨"Q1", some 3⟩] : List QTRow).find?
        (fun a => decide (a.que_text = "Q1")) = some ⟨"Q1", some 5⟩ := by
  refine ⟨by decide, ?_⟩
  exact (C6_drop_duplicates [⟨"Q1", some 5⟩, ⟨"Q1", some 3⟩]).2.2
    ⟨"Q1", some 5⟩ (by decide)

/-- C7, counterexample: on the malformed tally string `"many votes"` (which
contains `"votes"` but whose leading token is not numeric) the function
`convert_vote_count` evaluates `int("many")`, which raises `ValueError`
(modelled by `none`) and aborts the `.apply` over the column — the function
is not total and does not pass the malformed value through. -/
theorem C7_counterexample :
    convert_vote_count (Val.str "many votes") = none := by decide

/-- C7 (amended): `convert_vote_count` passes every non-string value and
every string not containing `"votes"` through unchanged, and converts a
string containing `"votes"` by applying Python `int` to its first
whitespace token — an integer result for a numeric leading token, but a
raised `ValueError` (an abort, not a pass-through or fallback) when the
leading token is not a decimal integer. -/
theorem C7_tally_normalization :
    (∀ n : Int, convert_vote_count (Val.int n) = some (Val.int n))
    ∧ (∀ t, convert_vote_count (Val.ts t) = some (Val.ts t))
    ∧ convert_vote_count Val.NaT = some Val.NaT
    ∧ (∀ s, containsCL "votes".data s.data = false →
        convert_vote_count (Val.str s) = some (Val.str s))
    ∧ (∀ s t ts2, containsCL "votes".data s.data = true →
        pySplitCL s.data = t :: ts2 →
        convert_vote_count (Val.str s) = (pyIntCL t).map Val.int) := by
  refine ⟨fun n => rfl, fun t => rfl, rfl, ?_, ?_⟩
  · intro s hs
    simp only [convert_vote_count]
    rw [if_neg (by rw [hs]; exact Bool.false_ne_true)]
  · intro s t ts2 hs hsplit
    simp only [convert_vote_count]
    rw [if_pos hs, hsplit]

/-- Witness for C7: `"42 votes"` contains the keyword, splits with leading
token `"42"`, and is converted to the integer 42. -/
theorem C7_tally_normalization_witness :
    containsCL "votes".data "42 votes".data = true
    ∧ pySplitCL "42 votes".data = ['4', '2'] :: ["votes".data]
    ∧ convert_vote_count (Val.str "42 votes") = (pyIntCL ['4', '2']).map Val.int
    ∧ (pyIntCL ['4', '2']).map Val.int = some (Val.int 42) := by
  refine ⟨by decide, by decide, ?_, by decide⟩
  exact C7_tally_normalization.2.2.2.2 "42 votes" ['4', '2'] ["votes".data]
    (by decide) (by decide)

/-- C8, counterexample: `parse_custom_date` resolves `"Today at 10:00"`
against the wall-clock date read from `datetime.now()` inside the core, so
two runs of the pipeline on identical inputs at different wall-clock dates
(October 22 versus October 23, 2024) produce different timestamps — the
relative-date resolution does read the wall clock. -/
theorem C8_counterexample :
    parse_custom_date toyDayfirst ⟨2024, 10, 22⟩ (DateCell.s "Today at 10:00")
      ≠ parse_custom_date toyDayfirst ⟨2024, 10, 23⟩ (DateCell.s "Today at 10:00") := by
  decide

/-- C8 (amended): the pipeline is deterministic only once the wall-clock
instant is fixed as an additional input: `parse_custom_date` consults the
clock date exactly for strings containing `"Today"` or `"Yesterday"` — for
every already-parsed timestamp and every string containing neither keyword
its result is independent of the clock date (and `convert_date` never
consults a clock at all, using a hard-coded calendar snapshot). -/
theorem C8_now_independence (toDT : String → Val) (now1 now2 : PyDate) :
    (∀ t, parse_custom_date toDT now1 (DateCell.ts t)
      = parse_custom_date toDT now2 (DateCell.ts t))
    ∧ (∀ s, containsCL "Today".data s.data = false →
        containsCL "Yesterday".data s.data = false →
        parse_custom_date toDT now1 (DateCell.s s)
          = parse_custom_date toDT now2 (DateCell.s s)) := by
  refine ⟨fun t => rfl, ?_⟩
  intro s h1 h2
  simp only [parse_custom_date]
  rw [if_neg (fun hc => Bool.false_ne_true (h1.symm.trans hc))]
  rw [if_neg (fun hc => Bool.false_ne_true (h1.symm.trans hc))]
  rw [if_neg (fun hc => Bool.false_ne_true (h2.symm.trans hc))]
  rw [if_neg (fun hc => Bool.false_ne_true (h2.symm.trans hc))]

/-- Witness for C8: an absolute day-first date string contains neither
keyword and parses identically under two different clock dates. -/
theorem C8_now_independence_witness :
    containsCL "Today".data "05/10/2024".data = false
    ∧ containsCL "Yesterday".data "05/10/2024".data = false
    ∧ parse_custom_date toyDayfirst ⟨2024, 10, 22⟩ (DateCell.s "05/10/2024")
      = parse_custom_date toyDayfirst ⟨2024, 10, 23⟩ (DateCell.s "05/10/2024") := by
  refine ⟨by decide, by decide, ?_⟩
  exact (C8_now_independence toyDayfirst ⟨2024, 10, 22⟩ ⟨2024, 10, 23⟩).2
    "05/10/2024" (by decide) (by decide)

/-- C10 (confirmed): relative-keyword recognition in `convert_date` is exact
and case-sensitive — precisely the strings `"TODAY"`, `"YESTERDAY"`,
`"SUNDAY"` and `"FRIDAY"` map to their fixed calendar dates of the October
2024 snapshot; every other value (any other casing or compound form
included) falls through to the day-first absolute parser, and when that
parse fails (coercing to `NaT`) the result is the unparseable marker `NaT`
rather than a keyword resolution or an exception. -/
theorem C10_convert_date_keywords (toDT : Val → Option Val) :
    convert_date toDT (Val.str "TODAY") = Val.ts ⟨2024, 10, 22, 0, 0⟩
    ∧ convert_date toDT (Val.str "YESTERDAY") = Val.ts ⟨2024, 10, 21, 0, 0⟩
    ∧ convert_date toDT (Val.str "SUNDAY") = Val.ts ⟨2024, 10, 20, 0, 0⟩
    ∧ convert_date toDT (Val.str "FRIDAY") = Val.ts ⟨2024, 10, 18, 0, 0⟩
    ∧ (∀ v, v ≠ Val.str "TODAY" → v ≠ Val.str "YESTERDAY" →
        v ≠ Val.str "SUNDAY" → v ≠ Val.str "FRIDAY" →
        convert_date toDT v = (toDT v).getD v
        ∧ (toDT v = some Val.NaT → convert_date toDT v = Val.NaT)) := by
  refine ⟨rfl, rfl, rfl, rfl, ?_⟩
  intro v h1 h2 h3 h4
  constructor
  · unfold convert_date
    rw [if_neg h1, if_neg h2, if_neg h3, if_neg h4]
    cases toDT v <;> rfl
  · intro hN
    unfold convert_date
    rw [if_neg h1, if_neg h2, if_neg h3, if_neg h4, hN]

/-- Witness for C10: the lower-case string `"today"` is not a keyword, falls
through to the (toy) day-first parser, fails to parse, and yields `NaT`. -/
theorem C10_convert_date_keywords_witness :
    Val.str "today" ≠ Val.str "TODAY"
    ∧ toyDayfirstVal (Val.str "today") = some Val.NaT
    ∧ convert_date toyDayfirstVal (Val.str "today") = Val.NaT := by
  refine ⟨by decide, by decide, ?_⟩
  exact ((C10_convert_date_keywords toyDayfirstVal).2.2.2.2 (Val.str "today")
    (by decide) (by decide) (by decide) (by decide)).2 (by decide)

theorem load_merge_question_text (v : VRow) (qa : List QTRow) :
    ∀ b ∈ load_merge [v] qa, b.question_text = v.question_text := by
  intro b hb
  simp only [load_merge, List.flatMap_cons, List.flatMap_nil, List.append_nil] at hb
  split at hb
  · rcases List.mem_singleton.mp hb with rfl
    rfl
  · rcases List.mem_map.mp hb with ⟨q, hq, rfl⟩
    rfl

theorem mergeCA_nil_of_no_key (rows : List EVRow) (ca : List CARow)
    (h : ∀ b ∈ rows, ∀ c ∈ ca, c.question_text ≠ b.question_text) :
    mergeCA rows ca = [] := by
  unfold mergeCA
  rw [List.flatMap_eq_nil_iff]
  intro b hb
  rw [List.filter_eq_nil_iff.mpr (fun c hc => by
    simp only [decide_eq_true_eq]
    exact h b hb c hc)]
  rfl

theorem mergeCA_append (r1 r2 : List EVRow) (ca : List CARow) :
    mergeCA (r1 ++ r2) ca = mergeCA r1 ca ++ mergeCA r2 ca :=
  List.flatMap_append r1 r2 _

theorem load_merge_append (v1 v2 : List VRow) (qa : List QTRow) :
    load_merge (v1 ++ v2) qa = load_merge v1 qa ++ load_merge v2 qa :=
  List.flatMap_append v1 v2 _

theorem load_merge_cons (v : VRow) (vs : List VRow) (qa : List QTRow) :
    load_merge (v :: vs) qa = load_merge [v] qa ++ load_merge vs qa := by
  unfold load_merge
  rw [List.flatMap_cons, List.flatMap_cons, List.flatMap_nil, List.append_nil]

theorem mergeCA_drop_unkeyed (qa : List QTRow) (ca : List CARow)
    (pre post : List VRow) (b : VRow)
    (hb : ∀ c ∈ ca, c.question_text ≠ b.question_text) :
    mergeCA (load_merge (pre ++ b :: post) qa) ca
      = mergeCA (load_merge (pre ++ post) qa) ca := by
  rw [load_merge_append, load_merge_cons, load_merge_append]
  rw [mergeCA_append, mergeCA_append, mergeCA_append]
  rw [mergeCA_nil_of_no_key (load_merge [b] qa) ca (fun r hr c hc => by
    rw [load_merge_question_text b qa r hr]
    exact hb c hc)]
  rw [List.nil_append]

/-- C5, counterexample: a ballot for question `"Q1"` that has NO matching row
in the Questions table (the question table is empty) still survives the
merge of `calculate_insights` — which joins only on the correct-answer key —
and contributes its voter `"v1"` to the Good-performers output, so absence
from the Questions table alone does not drop a ballot from the
merged-dataset metrics. -/
theorem C5_counterexample :
    (good_performers (mergeCA (load_merge [⟨"v1", "Q1", "A", some 0⟩] [])
        [⟨"Q1", "A"⟩]) 5).map (fun e => e.voter_name) = ["v1"] := by
  decide

/-- C5 (amended): a ballot whose question text has no matching row in the
correct-answer key is silently dropped at the `calculate_insights` merge and
contributes to no metric derived from the merged dataset — removing it
leaves the merged table and the incorrect-questions, easy-questions and
good-performers outputs unchanged, and no error is raised (every function is
total).  Absence from the Questions table alone does not drop a ballot: the
`load_data` join to the question table is a left merge that only leaves the
latency missing. -/
theorem C5_merge_drop (qa : List QTRow) (ca : List CARow)
    (pre post : List VRow) (b : VRow) (n : Nat)
    (hb : ∀ c ∈ ca, c.question_text ≠ b.question_text) :
    mergeCA (load_merge (pre ++ b :: post) qa) ca
      = mergeCA (load_merge (pre ++ post) qa) ca
    ∧ incorrect_questions (mergeCA (load_merge (pre ++ b :: post) qa) ca) n
      = incorrect_questions (mergeCA (load_merge (pre ++ post) qa) ca) n
    ∧ easy_questions (mergeCA (load_merge (pre ++ b :: post) qa) ca) n
      = easy_questions (mergeCA (load_merge (pre ++ post) qa) ca) n
    ∧ good_performers (mergeCA (load_merge (pre ++ b :: post) qa) ca) n
      = good_performers (mergeCA (load_merge (pre ++ post) qa) ca) n := by
  have h := mergeCA_drop_unkeyed qa ca pre post b hb
  exact ⟨h, by rw [h], by rw [h], by rw [h]⟩

/-- Witness for C5: a ballot for a question absent from the key is dropped;
with no other ballots the merged table is empty on both sides. -/
theorem C5_merge_drop_witness :
    (∀ c ∈ [(⟨"Q1", "A"⟩ : CARow)], c.question_text ≠ "QX")
    ∧ mergeCA (load_merge [⟨"v2", "QX", "A", some 0⟩] []) [⟨"Q1", "A"⟩]
      = mergeCA (load_merge [] []) [⟨"Q1", "A"⟩] := by
  refine ⟨by decide, ?_⟩
  exact (C5_merge_drop [] [⟨"Q1", "A"⟩] [] [] ⟨"v2", "QX", "A", some 0⟩ 1
    (by decide)).1

theorem mem_dedupById {α : Type} [DecidableEq α] {l : List α} {k : α} :
    k ∈ dedupByKey id l ↔ k ∈ l := by
  constructor
  · exact mem_of_mem_dedupByKey
  · intro h
    have hiff := @mem_keys_dedupAux α α _ (@id α) [] l k
    simp only [List.map_id] at hiff
    exact hiff.mpr ⟨h, by simp⟩

theorem mem_groupKeys {α : Type} {key : α → String} {l : List α} {k : String} :
    k ∈ groupKeys key l ↔ k ∈ l.map key := by
  unfold groupKeys
  rw [mem_sortBy, mem_dedupById]

theorem groupRows_length_pos {α : Type} {key : α → String} {l : List α}
    {k : String} (h : k ∈ l.map key) : 0 < (groupRows key l k).length := by
  rcases List.mem_map.mp h with ⟨x, hx, hxk⟩
  rw [List.length_pos]
  intro hnil
  have : x ∈ groupRows key l k := by
    unfold groupRows
    rw [List.mem_filter]
    exact ⟨hx, by simp [hxk]⟩
  rw [hnil] at this
  simp at this

theorem accuracy_bounds (s c : Nat) (hc : 0 < c) (hs : s ≤ c) :
    0 ≤ (s : ℚ) / (c : ℚ) * 100 ∧ (s : ℚ) / (c : ℚ) * 100 ≤ 100 := by
  have hc2 : (0 : ℚ) < (c : ℚ) := by exact_mod_cast hc
  constructor
  · positivity
  · have h1 : (s : ℚ) / (c : ℚ) ≤ 1 := by
      rw [div_le_one hc2]
      exact_mod_cast hs
    nlinarith

theorem goodPerfTable_mem {merged : List MRow} {e : GPRow}
    (h : e ∈ goodPerfTable merged) :
    e.voter_name ∈ merged.map (fun m => m.voter_name)
    ∧ e.count = (groupRows (fun m => m.voter_name) merged e.voter_name).length
    ∧ e.sum = ((groupRows (fun m => m.voter_name) merged e.voter_name).filter
        (fun m => m.is_correct)).length
    ∧ e.accuracy = (e.sum : ℚ) / (e.count : ℚ) * 100 := by
  unfold goodPerfTable at h
  rcases List.mem_map.mp h with ⟨v, hv, he⟩
  subst he
  exact ⟨mem_groupKeys.mp hv, rfl, rfl, rfl⟩

theorem sortedByRT_pairwise (df : List EVRow) :
    List.Pairwise (fun a b => rtVal a ≤ rtVal b) (sortedByRT df) := by
  have h := @sortBy_pairwise EVRow (fun a b => decide (rtVal a ≤ rtVal b))
    (fun a b c hab hbc => by
      simp only [decide_eq_true_eq] at *
      exact le_trans hab hbc)
    (fun a b => by
      simp only [decide_eq_true_eq]
      exact le_total (rtVal a) (rtVal b)) (notnaRT df)
  exact h.imp (fun hx => by simpa using hx)

theorem mem_sortedByRT {df : List EVRow} {b : EVRow} :
    b ∈ sortedByRT df ↔ b ∈ df ∧ b.response_time.isSome = true := by
  unfold sortedByRT
  rw [mem_sortBy]
  unfold notnaRT
  rw [List.mem_filter]

theorem mem_map_keys_sortedByRT {df : List EVRow} {q : String} :
    q ∈ (sortedByRT df).map (fun b => b.question_text)
      ↔ ∃ b ∈ df, b.question_text = q ∧ b.response_time.isSome = true := by
  constructor
  · intro h
    rcases List.mem_map.mp h with ⟨b, hb, hbq⟩
    rcases mem_sortedByRT.mp hb with ⟨hbd, hbs⟩
    exact ⟨b, hbd, hbq, hbs⟩
  · rintro ⟨b, hbd, hbq, hbs⟩
    exact List.mem_map.mpr ⟨b, mem_sortedByRT.mpr ⟨hbd, hbs⟩, hbq⟩

theorem firstResponses_min {df : List EVRow} {b : EVRow}
    (hb : b ∈ firstResponses df) :
    b ∈ df ∧ b.response_time.isSome = true
    ∧ ∀ b2 ∈ df, b2.question_text = b.question_text →
        ∀ t2, b2.response_time = some t2 → rtVal b ≤ t2 := by
  have hbs : b ∈ sortedByRT df := mem_of_mem_dedupByKey hb
  rcases mem_sortedByRT.mp hbs with ⟨hbd, hbsome⟩
  refine ⟨hbd, hbsome, ?_⟩
  intro b2 hb2 hq t2 ht2
  have hb2s : b2 ∈ sortedByRT df := mem_sortedByRT.mpr ⟨hb2, by simp [ht2]⟩
  rcases dedupByKey_first hb with ⟨l1, l2, hl, hkeys⟩
  have hpw := sortedByRT_pairwise df
  rw [hl] at hpw hb2s
  have hrt : rtVal b2 = t2 := by
    unfold rtVal
    rw [ht2]
    rfl
  rcases List.mem_append.mp hb2s with h1 | h2
  · exact absurd hq (hkeys b2 h1)
  · rcases List.mem_cons.mp h2 with rfl | h3
    · rw [← hrt]
    · rw [← hrt]
      rcases List.pairwise_append.mp hpw with ⟨hpw1, hpw2, hpw3⟩
      exact (List.pairwise_cons.mp hpw2).1 b2 h3

theorem firstResponses_count_one {df : List EVRow} {q : String}
    (h : ∃ b ∈ df, b.question_text = q ∧ b.response_time.isSome = true) :
    ((firstResponses df).filter (fun b => decide (b.question_text = q))).length
      = 1 := by
  rcases @dedupAux_filter_one EVRow String _ (fun b => b.question_text) q []
    (sortedByRT df) (by simp) (mem_map_keys_sortedByRT.mpr h) with ⟨x, hx, hkx⟩
  unfold firstResponses dedupByKey
  rw [hx]
  rfl

theorem firstResponses_count_zero {df : List EVRow} {q : String}
    (h : ∀ b ∈ df, b.question_text = q → b.response_time = none) :
    ((firstResponses df).filter (fun b => decide (b.question_text = q))).length
      = 0 := by
  unfold firstResponses
  rw [dedupByKey_filter_nil ?_]
  · rfl
  · intro hc
    rcases mem_map_keys_sortedByRT.mp hc with ⟨b, hbd, hbq, hbs⟩
    rw [h b hbd hbq] at hbs
    simp at hbs

/-- Question table of the end-to-end scenario in the specification: question
`"Q1"` created at 10:00 (modelled as second 36000 of the day), one row per
answer option (A and B), hence two rows with the same text and timestamp. -/
def scenarioQuestions : List QTRow :=
  [⟨"Q1", some 36000⟩, ⟨"Q1", some 36000⟩]

/-- Ballot table of the scenario: `v1` picks A at 10:05 (second 36300),
`v2` picks B at 10:02 (second 36120). -/
def scenarioBallots : List VRow :=
  [⟨"v1", "Q1", "A", some 36300⟩, ⟨"v2", "Q1", "B", some 36120⟩]

/-- Correct-answer key of the scenario: A is correct for `"Q1"`. -/
def scenarioKey : List CARow := [⟨"Q1", "A"⟩]

theorem scenario_goodPerfTable :
    goodPerfTable (mergeCA (load_merge scenarioBallots scenarioQuestions)
        scenarioKey)
      = [⟨"v1", 2, 2, 100⟩, ⟨"v2", 2, 0, 0⟩] := by
  have h : goodPerfTable (mergeCA (load_merge scenarioBallots scenarioQuestions)
        scenarioKey)
      = [⟨"v1", 2, 2, ((2 : Nat) : ℚ) / ((2 : Nat) : ℚ) * 100⟩,
         ⟨"v2", 2, 0, ((0 : Nat) : ℚ) / ((2 : Nat) : ℚ) * 100⟩] := rfl
  have e1 : ((2 : Nat) : ℚ) / ((2 : Nat) : ℚ) * 100 = 100 := by norm_num
  have e2 : ((0 : Nat) : ℚ) / ((2 : Nat) : ℚ) * 100 = 0 := by norm_num
  rw [h, e1, e2]

theorem scenario_good_performers :
    good_performers (mergeCA (load_merge scenarioBallots scenarioQuestions)
        scenarioKey) 2
      = [⟨"v1", 2, 2, 100⟩, ⟨"v2", 2, 0, 0⟩] := by
  unfold good_performers
  rw [scenario_goodPerfTable]
  have hd : decide ((0 : ℚ) ≤ 100) = true := decide_eq_true (by norm_num)
  show (sortBy (fun a b : GPRow => decide (b.accuracy ≤ a.accuracy))
      [⟨"v1", 2, 2, 100⟩, ⟨"v2", 2, 0, 0⟩]).take 2
    = [⟨"v1", 2, 2, 100⟩, ⟨"v2", 2, 0, 0⟩]
  simp [sortBy, insertSorted, hd]

/-- C2 (confirmed): the Good-performers metric of `calculate_insights` ranks
exactly the voters having at least one merged ballot — each output entry
carries that voter's merged-ballot count (positive), correct count, and
accuracy `sum / count * 100`, a value in `[0, 100]` — in descending accuracy
order, and a voter with no merged ballot never appears; on the end-to-end
scenario of the specification, Good-performers with `N = 2` returns
`[("v1", 100.0), ("v2", 0.0)]`. -/
theorem C2_good_performers :
    (∀ (merged : List MRow) (n : Nat),
      (∀ e ∈ good_performers merged n,
        0 < e.count
        ∧ e.count = (groupRows (fun m => m.voter_name) merged e.voter_name).length
        ∧ e.sum = ((groupRows (fun m => m.voter_name) merged e.voter_name).filter
            (fun m => m.is_correct)).length
        ∧ e.accuracy = (e.sum : ℚ) / (e.count : ℚ) * 100
        ∧ 0 ≤ e.accuracy ∧ e.accuracy ≤ 100)
      ∧ List.Pairwise (fun a b : GPRow => b.accuracy ≤ a.accuracy)
          (good_performers merged n)
      ∧ (∀ v, (∀ m ∈ merged, m.voter_name ≠ v) →
          ∀ e ∈ good_performers merged n, e.voter_name ≠ v))
    ∧ (good_performers (mergeCA (load_merge scenarioBallots scenarioQuestions)
          scenarioKey) 2).map (fun e => (e.voter_name, e.accuracy))
        = [("v1", 100), ("v2", 0)] := by
  constructor
  · intro merged n
    refine ⟨?_, ?_, ?_⟩
    · intro e he
      have hm := goodPerfTable_mem (mem_nlargest he)
      have hpos : 0 < e.count := by
        rw [hm.2.1]
        exact groupRows_length_pos hm.1
      have hs : e.sum ≤ e.count := by
        rw [hm.2.1, hm.2.2.1]
        exact List.length_filter_le _ _
      have hb := accuracy_bounds e.sum e.count hpos hs
      refine ⟨hpos, hm.2.1, hm.2.2.1, hm.2.2.2, ?_, ?_⟩
      · rw [hm.2.2.2]
        exact hb.1
      · rw [hm.2.2.2]
        exact hb.2
    · exact nlargest_sorted n (fun e : GPRow => e.accuracy) (goodPerfTable merged)
    · intro v hv e he hev
      have hm := goodPerfTable_mem (mem_nlargest he)
      rcases List.mem_map.mp hm.1 with ⟨m, hmm, hmv⟩
      exact hv m hmm (by rw [hmv, hev])
  · rw [scenario_good_performers]
    rfl

/-- Witness for C2: on the scenario, the entry of voter `v1` (two merged
ballots, both correct) is in the output with a positive count and an
accuracy inside the bounds. -/
theorem C2_good_performers_witness :
    (⟨"v1", 2, 2, 100⟩ : GPRow) ∈ good_performers
        (mergeCA (load_merge scenarioBallots scenarioQuestions) scenarioKey) 2
    ∧ 0 < (⟨"v1", 2, 2, 100⟩ : GPRow).count
    ∧ 0 ≤ (⟨"v1", 2, 2, 100⟩ : GPRow).accuracy
    ∧ (⟨"v1", 2, 2, 100⟩ : GPRow).accuracy ≤ 100 := by
  have hmem : (⟨"v1", 2, 2, 100⟩ : GPRow) ∈ good_performers
      (mergeCA (load_merge scenarioBallots scenarioQuestions) scenarioKey) 2 := by
    rw [scenario_good_performers]
    exact List.mem_cons_self _ _
  have h := (C2_good_performers.1
    (mergeCA (load_merge scenarioBallots scenarioQuestions) scenarioKey) 2).1
    _ hmem
  exact ⟨hmem, h.1, h.2.2.2.2.1, h.2.2.2.2.2⟩

/-- C3 (confirmed): in the Early-birds metric of `calculate_insights`, every
question with at least one non-missing-latency ballot keeps exactly one
credited row, a question all of whose ballots have missing latency keeps
none; a credited row comes from the input, has a non-missing latency, and
that latency is minimal among all non-missing latencies of its question
(ties keeping the first row in sort order by construction); the output ranks
voters by their credit counts (each positive), descending, truncated to
`n`. -/
theorem C3_early_birds (df : List EVRow) (n : Nat) :
    (∀ q, (∃ b ∈ df, b.question_text = q ∧ b.response_time.isSome = true) →
      ((firstResponses df).filter (fun b => decide (b.question_text = q))).length
        = 1)
    ∧ (∀ q, (∀ b ∈ df, b.question_text = q → b.response_time = none) →
      ((firstResponses df).filter (fun b => decide (b.question_text = q))).length
        = 0)
    ∧ (∀ b ∈ firstResponses df,
        b ∈ df ∧ b.response_time.isSome = true
        ∧ ∀ b2 ∈ df, b2.question_text = b.question_text →
            ∀ t2, b2.response_time = some t2 → rtVal b ≤ t2)
    ∧ (∀ p ∈ early_birds df n,
        p.2 = (groupRows (fun b => b.voter_name) (firstResponses df) p.1).length
        ∧ 0 < p.2)
    ∧ List.Pairwise (fun a b : String × Nat => b.2 ≤ a.2) (early_birds df n)
    ∧ (early_birds df n).length ≤ n := by
  refine ⟨fun q h => firstResponses_count_one h,
    fun q h => firstResponses_count_zero h,
    fun b hb => firstResponses_min hb, ?_, ?_, ?_⟩
  · intro p hp
    have hp2 := mem_nlargest hp
    rcases List.mem_map.mp hp2 with ⟨v, hv, he⟩
    subst he
    exact ⟨rfl, groupRows_length_pos (mem_groupKeys.mp hv)⟩
  · exact nlargest_sorted n Prod.snd _
  · exact nlargest_length_le n Prod.snd _

/-- Witness for C3: on the scenario data, question `"Q1"` has a
non-missing-latency ballot and keeps exactly one credited row; the output of
size 2 is descending and within bounds. -/
theorem C3_early_birds_witness :
    ((firstResponses (load_merge scenarioBallots scenarioQuestions)).filter
        (fun b => decide (b.question_text = "Q1"))).length = 1
    ∧ List.Pairwise (fun a b : String × Nat => b.2 ≤ a.2)
        (early_birds (load_merge scenarioBallots scenarioQuestions) 2)
    ∧ (early_birds (load_merge scenarioBallots scenarioQuestions) 2).length ≤ 2 := by
  have h := C3_early_birds (load_merge scenarioBallots scenarioQuestions) 2
  refine ⟨h.1 "Q1" ?_, h.2.2.2.2.1, h.2.2.2.2.2⟩
  exact ⟨⟨"v1", "Q1", "A", some 36300, some 36000, some 300⟩, by decide, rfl, rfl⟩

/-- C4, counterexample: with voter `a` casting three ballots and voter `b`
one, the Least-active-voters output for `N = 2` is `[("a", 3), ("b", 1)]` —
the tail of the descending activity ranking — which is not ordered ascending
by ballot count, refuting the claimed ascending order of that metric. -/
theorem C4_counterexample :
    least_active (load_merge [⟨"a", "Q1", "A", none⟩, ⟨"a", "Q1", "A", none⟩,
        ⟨"a", "Q1", "A", none⟩, ⟨"b", "Q1", "B", none⟩] []) 2
      = [("a", 3), ("b", 1)]
    ∧ ¬ ((3 : Nat) ≤ 1) :=
  ⟨by decide, by decide⟩

/-- C4 (amended): for every enriched ballot table, correct-answer key and
`N ≥ 1`, each of the ten metric outputs of `calculate_insights` has length
at most `N`, and each is sorted according to its declared order — Most
active descending, Early birds descending, Incorrectly-voted descending by
incorrect ratio, Easy questions all of ratio exactly 1, Inactive followers
ascending by last timestamp, Good performers descending by accuracy,
Fewest-votes ascending, Fast responses ascending, Slow responses
descending — except Least-active-voters, which is the last-`N` slice of the
descending activity ranking and is therefore ordered descending
(non-increasing) by ballot count, not ascending. -/
theorem C4_metric_shapes (df : List EVRow) (ca : List CARow) (n : Nat)
    (hn : 1 ≤ n) :
    (active_voters df n).length ≤ n
    ∧ List.Pairwise (fun a b : String × Nat => b.2 ≤ a.2) (active_voters df n)
    ∧ (early_birds df n).length ≤ n
    ∧ List.Pairwise (fun a b : String × Nat => b.2 ≤ a.2) (early_birds df n)
    ∧ (incorrect_questions (mergeCA df ca) n).length ≤ n
    ∧ List.Pairwise (fun a b : String × ℚ => b.2 ≤ a.2)
        (incorrect_questions (mergeCA df ca) n)
    ∧ (easy_questions (mergeCA df ca) n).length ≤ n
    ∧ (∀ p ∈ easy_questions (mergeCA df ca) n, p.2 = 1)
    ∧ (least_active df n).length ≤ n
    ∧ List.Pairwise (fun a b : String × Nat => b.2 ≤ a.2) (least_active df n)
    ∧ (inactive_followers df n).length ≤ n
    ∧ List.Pairwise (fun a b : String × Int => a.2 ≤ b.2) (inactive_followers df n)
    ∧ (good_performers (mergeCA df ca) n).length ≤ n
    ∧ List.Pairwise (fun a b : GPRow => b.accuracy ≤ a.accuracy)
        (good_performers (mergeCA df ca) n)
    ∧ (least_voted df n).length ≤ n
    ∧ List.Pairwise (fun a b : String × Nat => a.2 ≤ b.2) (least_voted df n)
    ∧ (fast_responses df n).length ≤ n
    ∧ List.Pairwise (fun a b : String × Int => a.2 ≤ b.2) (fast_responses df n)
    ∧ (slow_responses df n).length ≤ n
    ∧ List.Pairwise (fun a b : String × Int => b.2 ≤ a.2) (slow_responses df n) := by
  refine ⟨List.length_take_le n _,
    (valueCounts_sorted _).sublist (List.take_sublist n _),
    nlargest_length_le n Prod.snd _,
    nlargest_sorted n Prod.snd _,
    nlargest_length_le n Prod.snd _,
    nlargest_sorted n Prod.snd _,
    List.length_take_le n _,
    ?_,
    ?_,
    (valueCounts_sorted _).sublist (List.drop_sublist _ _),
    nsmallest_length_le n Prod.snd _,
    nsmallest_sorted n Prod.snd _,
    nlargest_length_le n (fun e : GPRow => e.accuracy) _,
    nlargest_sorted n (fun e : GPRow => e.accuracy) _,
    nsmallest_length_le n Prod.snd _,
    nsmallest_sorted n Prod.snd _,
    nsmallest_length_le n Prod.snd _,
    nsmallest_sorted n Prod.snd _,
    nlargest_length_le n Prod.snd _,
    nlargest_sorted n Prod.snd _⟩
  · intro p hp
    have hp2 := List.mem_of_mem_take hp
    have hp3 := List.mem_filter.mp hp2
    simpa using hp3.2
  · show ((valueCounts (df.map (fun b => b.voter_name))).drop
      ((valueCounts (df.map (fun b => b.voter_name))).length - n)).length ≤ n
    rw [List.length_drop]
    omega

/-- Witness for C4: on the scenario data with `N = 1`, the Most-active
output respects the length bound. -/
theorem C4_metric_shapes_witness :
    1 ≤ 1
    ∧ (active_voters (load_merge scenarioBallots scenarioQuestions) 1).length ≤ 1 :=
  ⟨by decide,
   (C4_metric_shapes (load_merge scenarioBallots scenarioQuestions) scenarioKey 1
     (by decide)).1⟩
